import Mathlib

/-!
Verification development for the `utils.py` module of the ee559-project2 repository.

The module generates a toy 2-D dataset (`load_data`), one-hot encodes integer
labels (`to_one_hot`), standardizes tensors in place (`standardize`), and saves
diagnostic plots (`plot_dataset`, `train_visualization`).

Embedding choices, stated once here and repeated at the relevant definitions:

* Tensors of shape `(N, 2)` are `List (ℚ × ℚ)`; flat tensors are `List ℚ`.
  Exact rational arithmetic stands in for the float arithmetic of the source.
* The float constant `r2 = 1/(2*math.pi)` is irrational, so the disk-radius
  threshold is a parameter `r2 : ℚ` of the model; no claim depends on its value.
* `torch.std` is the square root of the unbiased variance, irrational in
  general, so `load_data` takes the standard-deviation function as a parameter
  `stdf : List ℚ → ℚ`; claims that need it to really be the standard deviation
  carry the hypothesis `(stdf l)^2 = uvar l` at the point of use.
* The random generator is modelled by passing the sampled coordinate lists
  (`torch.FloatTensor(N,2).uniform_(0,1)`) as explicit inputs.
* The out-of-bounds indexing failure of `Y[range(len(y)), y] = 1` and any other
  crash is modelled by `Option`.
* Saving a figure is modelled by recording a `PlotEvent` carrying the file name
  and the data handed to the plotting call.
-/

namespace Utils

/-- Models `len(y.unique())`: the number of distinct values of the label
vector `y` (`torch.unique` returns the sorted distinct values; only its
length is used by the source). -/
def numClasses (y : List ℕ) : ℕ := y.dedup.length

/-- Row of a one-hot matrix with `c` columns and the single 1 in column `v`:
what row `i` of `Y` looks like after `Y[range(len(y)), y] = 1` when `y i = v`. -/
def oneHotRow (c v : ℕ) : List ℚ := (List.range c).map (fun j => if j = v then 1 else 0)

/-- Models `to_one_hot` (utils.py lines 46-54): `Y = torch.zeros((len(y),
len(y.unique())))` followed by `Y[range(len(y)), y] = 1`.  The advanced-indexing
assignment raises `IndexError` exactly when some label `y i` is not a valid
column index, i.e. `numClasses y ≤ y i`; this failure is the `none` branch. -/
def to_one_hot (y : List ℕ) : Option (List (List ℚ)) :=
  if ∀ v ∈ y, v < numClasses y then some (y.map (fun v => oneHotRow (numClasses y) v)) else none

/-- Models `standardize` (utils.py lines 56-60): `x.sub_(mean).div_(std)`,
elementwise `(e - mean) / std` on the flat list of entries.  The in-place
aspect is captured separately by `standardizeInPlace`. -/
def standardize (x : List ℚ) (mean std : ℚ) : List ℚ :=
  x.map (fun e => (e - mean) / std)

/-- A heap of flat tensors addressed by position, used to express the in-place
mutation and aliasing of `standardize`. -/
def Store : Type := List (List ℚ)

/-- State-passing embedding of `standardize`: the tensor argument is the handle
`i` into the store; the entries of slot `i` are overwritten (sub_/div_ mutate)
and the function returns the very handle it was given. -/
def standardizeInPlace (s : Store) (i : ℕ) (mean std : ℚ) : Store × ℕ :=
  (List.set s i (standardize (List.getD s i []) mean std), i)

/-- Guarded-division variant of `standardize`: the division `div_(std)` is
fenced by a zero test, so the error branch stands for the division by zero the
source performs unguarded. -/
def standardizeChecked (x : List ℚ) (mean std : ℚ) : Option (List ℚ) :=
  if std = 0 then none else some (standardize x mean std)

/-- Models `torch.Tensor.mean` over all entries of a tensor, given its flat
list of entries. -/
def mean (l : List ℚ) : ℚ := l.sum / l.length

/-- Unbiased sample variance over all entries, with the Bessel correction
`n - 1`: the square of what `torch.Tensor.std` returns. -/
def uvar (l : List ℚ) : ℚ :=
  (l.map (fun e => (e - mean l) ^ 2)).sum / ((l.length : ℚ) - 1)

/-- Squared Euclidean distance from a point to the disk center `(0.5, 0.5)`:
one row of `trainX.sub(center).pow(2).sum(axis=1)`. -/
def sqdistToCenter (p : ℚ × ℚ) : ℚ := (p.1 - 1 / 2) ^ 2 + (p.2 - 1 / 2) ^ 2

/-- Disk-membership label of one point, `(… < r2).long()` for one row.  The
parameter `r2` stands for the float constant `1/(2*math.pi)` of utils.py line
30, which is irrational and therefore kept symbolic; no claim depends on its
exact value. -/
def label (r2 : ℚ) (p : ℚ × ℚ) : ℕ := if sqdistToCenter p < r2 then 1 else 0

/-- Label vector of a sample. -/
def labels (r2 : ℚ) (l : List (ℚ × ℚ)) : List ℕ := l.map (label r2)

/-- Row-major flattening of an `(N, 2)` tensor: the view over which the
scalar `.mean()` and `.std()` of utils.py lines 37-38 aggregate. -/
def flatten : List (ℚ × ℚ) → List ℚ
  | [] => []
  | p :: ps => p.1 :: p.2 :: flatten ps

/-- `standardize` acting elementwise on an `(N, 2)` tensor with scalar
`mean`/`std`, as in utils.py line 44. -/
def standardize2 (l : List (ℚ × ℚ)) (mean std : ℚ) : List (ℚ × ℚ) :=
  l.map (fun p => ((p.1 - mean) / std, (p.2 - mean) / std))

/-- A figure saved by `plt.savefig`: the file name together with the data and
labels handed to the plotting call. -/
structure PlotEvent where
  fname : String
  data : List (ℚ × ℚ)
  lab : List (List ℚ)
deriving DecidableEq

/-- Name under which `load_data` plots the training sample. -/
def nameTrain : String := "train"

/-- Name under which `load_data` plots the test sample. -/
def nameTest : String := "test"

/-- Models `plot_dataset` (utils.py lines 62-73): scatter the points coloured
by label and save under `fname = 'fig/' + name + '.png'`. -/
def plot_dataset (data : List (ℚ × ℚ)) (lab : List (List ℚ)) (name : String) : PlotEvent :=
  { fname := "fig/" ++ name ++ ".png", data := data, lab := lab }

/-- Result of one `load_data` run: the two returned standardized samples with
their one-hot targets, plus the trace of saved figures. -/
structure LoadResult where
  trainX : List (ℚ × ℚ)
  trainY : List (List ℚ)
  testX : List (ℚ × ℚ)
  testY : List (List ℚ)
  plots : List PlotEvent
deriving DecidableEq

/-- Models `load_data` (utils.py lines 6-44).  The random generator is
modelled by passing the two sampled coordinate lists as inputs; `stdf` stands
for `torch.Tensor.std` (the square root of `uvar`, irrational in general, so
kept as a parameter).  Steps in source order: label and one-hot encode both
samples (a `to_one_hot` failure aborts the run), compute `mean_`/`std_` of the
raw training coordinates, optionally plot the raw samples, and finally
standardize both samples in place for the return tuple. -/
def load_data (r2 : ℚ) (stdf : List ℚ → ℚ) (trainX testX : List (ℚ × ℚ))
    (plotting : Bool) : Option LoadResult :=
  match to_one_hot (labels r2 trainX), to_one_hot (labels r2 testX) with
  | some trainY, some testY =>
    some { trainX := standardize2 trainX (mean (flatten trainX)) (stdf (flatten trainX))
           trainY := trainY
           testX := standardize2 testX (mean (flatten trainX)) (stdf (flatten trainX))
           testY := testY
           plots := if plotting then
               [plot_dataset trainX trainY nameTrain, plot_dataset testX testY nameTest]
             else [] }
  | _, _ => none

/-- The decimal value of the float constant `1/(2*math.pi)` to 15 significant
digits, used for concrete runs; on the inputs below any threshold in
`(0, 1/2]`, in particular the exact float, produces the same trace. -/
def r2num : ℚ := 159154943091895 / 1000000000000000

/-- Rows of `Y` are the `c`-column one-hot indicators of the disk labels of
`X`, row by row. -/
def oneHotLabelRows (r2 : ℚ) (c : ℕ) (X : List (ℚ × ℚ)) (Y : List (List ℚ)) : Prop :=
  Y.length = X.length ∧
  ∀ i, i < X.length → List.getD Y i [] = oneHotRow c (label r2 (List.getD X i (0, 0)))

/-- Tail-recursive scan returning the index of the first maximal entry seen:
`bi`/`bv` are the best index and value so far, `i` the index of the head. -/
def argmaxGo (bi : ℕ) (bv : ℚ) (i : ℕ) : List ℚ → ℕ
  | [] => bi
  | x :: xs => if bv < x then argmaxGo i x (i + 1) xs else argmaxGo bi bv (i + 1) xs

/-- Models `torch.Tensor.argmax` along one row: index of the first maximal
entry (empty rows give 0; the source never feeds empty rows). -/
def argmax : List ℚ → ℕ
  | [] => 0
  | x :: xs => argmaxGo 0 x 1 xs

/-- One confusion cell: the number of positions predicted as class `a` whose
true class is `b`; models the masks `(pred == a) & (testY.argmax(1) == b)`
of utils.py lines 108-111 followed by `.sum()`. -/
def countPT (pred trueC : List ℕ) (a b : ℕ) : ℕ :=
  List.countP (fun pt => pt.1 == a && pt.2 == b) (pred.zip trueC)

/-- Result of one `train_visualization` run: the 2×2 confusion table
`[[b00, b10], [b01, b11]]` of utils.py line 115 and the saved-file trace. -/
structure TVResult where
  conf : List (List ℕ)
  files : List String
deriving DecidableEq

/-- Models `train_visualization` (utils.py lines 75-141).  The trained network
is an abstract row-scoring function `net`; predictions are the row argmaxes of
`net testX`, true classes the row argmaxes of `testY`.  The three figures are
saved under the fixed relative paths of lines 101, 125 and 139. -/
def train_visualization (net : List (ℚ × ℚ) → List (List ℚ)) (losses : List ℚ)
    (testX : List (ℚ × ℚ)) (testY : List (List ℚ)) : TVResult :=
  let pred := (net testX).map argmax
  let trueC := testY.map argmax
  { conf := [[countPT pred trueC 0 0, countPT pred trueC 1 0],
             [countPT pred trueC 0 1, countPT pred trueC 1 1]]
    files := ["fig/loss.png", "fig/confmat.png", "fig/predictions.png"] }

/-- Concrete training sample for witness runs: two points, both outside any
disk of radius² ≤ 1/2, whose flat entries `[0, 0, 0, 2]` have mean 1/2 and
unbiased variance exactly 1. -/
def tX2 : List (ℚ × ℚ) := [(0, 0), (0, 2)]

/-- The `LoadResult` that `load_data 0 (fun _ => 1) tX2 [] pl` produces. -/
def res2 (pl : Bool) : LoadResult :=
  { trainX := [((-1) / 2, (-1) / 2), ((-1) / 2, 3 / 2)]
    trainY := [[1], [1]]
    testX := []
    testY := []
    plots := if pl then
        [plot_dataset tX2 [[1], [1]] nameTrain, plot_dataset [] [] nameTest]
      else [] }

/-- Concrete training sample with one point inside and one outside the disk of
radius² = 1/8: labels `[1, 0]`, so both classes occur. -/
def tX3 : List (ℚ × ℚ) := [(1 / 2, 1 / 2), (0, 0)]

/-- The `LoadResult` that `load_data (1/8) (fun _ => 1) tX3 [] false` produces. -/
def res3 : LoadResult :=
  { trainX := [(1 / 4, 1 / 4), ((-1) / 4, (-1) / 4)]
    trainY := [[0, 1], [1, 0]]
    testX := []
    testY := []
    plots := [] }

/-- Concrete trained network for witness runs: scores three fixed rows. -/
def net7 : List (ℚ × ℚ) → List (List ℚ) := fun _ => [[1, 0], [0, 1], [2, 3]]

/-- Concrete one-hot test targets matching `net7`: true classes `[0, 0, 1]`. -/
def tY7 : List (List ℚ) := [[1, 0], [1, 0], [0, 1]]

lemma set_getD_same : ∀ (s : Store) (i : ℕ) (v : List ℚ), i < s.length →
    List.getD (List.set s i v) i [] = v := by
  intro s
  induction s with
  | nil => intro i v h; simp at h
  | cons a s ih =>
    intro i v h
    match i with
    | 0 => rfl
    | n + 1 =>
      simp only [List.set]
      exact ih n v (by simpa using h)

lemma set_getD_other : ∀ (s : Store) (i j : ℕ) (v : List ℚ), j ≠ i →
    List.getD (List.set s i v) j [] = List.getD s j [] := by
  intro s
  induction s with
  | nil => intro i j v _; simp [List.set]
  | cons a s ih =>
    intro i j v hj
    match i, j with
    | 0, 0 => exact absurd rfl hj
    | 0, m + 1 => rfl
    | n + 1, 0 => rfl
    | n + 1, m + 1 => exact ih n m v (by omega)

lemma sum_map_sub_const (l : List ℚ) (c : ℚ) :
    (l.map (fun e => e - c)).sum = l.sum - l.length * c := by
  induction l with
  | nil => simp
  | cons a l ih =>
    simp only [List.map_cons, List.sum_cons, ih, List.length_cons]
    push_cast
    ring

lemma sum_map_div_const (l : List ℚ) (c : ℚ) :
    (l.map (fun e => e / c)).sum = l.sum / c := by
  induction l with
  | nil => simp
  | cons a l ih => simp [ih, add_div]

lemma mean_standardize_self (l : List ℚ) (σ : ℚ) (h : l ≠ []) :
    mean (standardize l (mean l) σ) = 0 := by
  have hn : (l.length : ℚ) ≠ 0 := by
    simp only [ne_eq, Nat.cast_eq_zero, List.length_eq_zero]
    exact h
  have hmap : standardize l (mean l) σ = (l.map (fun e => e - mean l)).map (fun e => e / σ) := by
    simp [standardize, List.map_map]
  have hsum : (standardize l (mean l) σ).sum = 0 := by
    rw [hmap, sum_map_div_const, sum_map_sub_const]
    rw [mean]
    field_simp
  rw [mean, hsum, zero_div]

lemma uvar_standardize_self (l : List ℚ) (σ : ℚ) (h2 : 2 ≤ l.length)
    (hσ2 : σ ^ 2 = uvar l) (hσ0 : σ ≠ 0) :
    uvar (standardize l (mean l) σ) = 1 := by
  have hne : l ≠ [] := by
    intro hnil
    rw [hnil] at h2
    simp at h2
  have hσ2ne : σ ^ 2 ≠ 0 := pow_ne_zero 2 hσ0
  have hn1 : ((l.length : ℚ) - 1) ≠ 0 := by
    have hc : (2 : ℚ) ≤ (l.length : ℚ) := by exact_mod_cast h2
    intro hz
    rw [sub_eq_zero] at hz
    rw [hz] at hc
    norm_num at hc
  have hlen : (standardize l (mean l) σ).length = l.length := by simp [standardize]
  have hmean := mean_standardize_self l σ hne
  have hnum : ((standardize l (mean l) σ).map
        (fun e => (e - mean (standardize l (mean l) σ)) ^ 2)).sum =
      (l.map (fun e => (e - mean l) ^ 2)).sum / σ ^ 2 := by
    rw [hmean]
    simp only [sub_zero, standardize, List.map_map]
    have hfun : ((fun e => e ^ 2) ∘ fun e => (e - mean l) / σ) =
        (fun e => e / σ ^ 2) ∘ (fun e => (e - mean l) ^ 2) := by
      funext e
      simp [div_pow]
    rw [hfun, ← List.map_map, sum_map_div_const]
  have hS : (l.map (fun e => (e - mean l) ^ 2)).sum = σ ^ 2 * ((l.length : ℚ) - 1) := by
    rw [hσ2]
    simp only [uvar]
    field_simp
  simp only [uvar, hnum, hlen, hS]
  field_simp

lemma flatten_standardize2 (l : List (ℚ × ℚ)) (m s : ℚ) :
    flatten (standardize2 l m s) = standardize (flatten l) m s := by
  induction l with
  | nil => rfl
  | cons p ps ih =>
    simp only [standardize2, List.map_cons, flatten, standardize] at ih ⊢
    rw [ih]

lemma flatten_length (l : List (ℚ × ℚ)) : (flatten l).length = 2 * l.length := by
  induction l with
  | nil => rfl
  | cons p ps ih =>
    simp only [flatten, List.length_cons, ih]
    ring

lemma load_data_eq_some (r2 : ℚ) (stdf : List ℚ → ℚ) (trainX testX : List (ℚ × ℚ))
    (plotting : Bool) (res : LoadResult)
    (hres : load_data r2 stdf trainX testX plotting = some res) :
    ∃ Y1 Y2, to_one_hot (labels r2 trainX) = some Y1 ∧ to_one_hot (labels r2 testX) = some Y2 ∧
      res = { trainX := standardize2 trainX (mean (flatten trainX)) (stdf (flatten trainX))
              trainY := Y1
              testX := standardize2 testX (mean (flatten trainX)) (stdf (flatten trainX))
              testY := Y2
              plots := if plotting then
                  [plot_dataset trainX Y1 nameTrain, plot_dataset testX Y2 nameTest]
                else [] } := by
  unfold load_data at hres
  cases h1 : to_one_hot (labels r2 trainX) with
  | none => rw [h1] at hres; cases hres
  | some Y1 =>
    cases h2 : to_one_hot (labels r2 testX) with
    | none => rw [h1, h2] at hres; cases hres
    | some Y2 =>
      rw [h1, h2] at hres
      exact ⟨Y1, Y2, rfl, rfl, (Option.some.inj hres).symm⟩

lemma getD_map {α β : Type} (f : α → β) (l : List α) (dα : α) (dβ : β) :
    ∀ i, i < l.length → List.getD (l.map f) i dβ = f (List.getD l i dα) := by
  induction l with
  | nil => intro i h; simp at h
  | cons a l ih =>
    intro i h
    match i with
    | 0 => rfl
    | n + 1 => exact ih n (by simpa using h)

lemma oneHotRow_length (c v : ℕ) : (oneHotRow c v).length = c := by
  simp [oneHotRow]

lemma to_one_hot_eq_some (y : List ℕ) (Y : List (List ℚ)) (h : to_one_hot y = some Y) :
    Y = y.map (fun v => oneHotRow (numClasses y) v) := by
  unfold to_one_hot at h
  by_cases hall : ∀ v ∈ y, v < numClasses y
  · rw [if_pos hall] at h
    exact (Option.some.inj h).symm
  · rw [if_neg hall] at h
    cases h

lemma numClasses_eq_two (y : List ℕ) (h : y.toFinset = ({0, 1} : Finset ℕ)) :
    numClasses y = 2 := by
  unfold numClasses
  rw [← List.card_toFinset, h]
  decide

lemma to_one_hot_nil : to_one_hot [] = some [] := by
  unfold to_one_hot
  rw [if_pos]
  · rfl
  · intro v hv
    cases hv

lemma dedup_replicate_succ (n : ℕ) (a : ℕ) : (List.replicate (n + 1) a).dedup = [a] := by
  induction n with
  | zero => rfl
  | succ n ih =>
    rw [List.replicate_succ, List.dedup_cons_of_mem, ih]
    exact List.mem_replicate.mpr ⟨Nat.succ_ne_zero n, rfl⟩

lemma to_one_hot_zeros (n : ℕ) :
    to_one_hot (List.replicate (n + 1) 0) = some (List.replicate (n + 1) [1]) := by
  have hnc : numClasses (List.replicate (n + 1) 0) = 1 := by
    rw [numClasses, dedup_replicate_succ]
    rfl
  unfold to_one_hot
  rw [if_pos]
  · rw [hnc, List.map_replicate]
    have h1 : oneHotRow 1 0 = [1] := by
      simp [oneHotRow, List.range_succ]
    rw [h1]
  · intro v hv
    rw [List.eq_of_mem_replicate hv, hnc]
    omega

lemma load_data_run1 (pl : Bool) :
    load_data 0 (fun _ => 1) tX2 [] pl = some (res2 pl) := by
  have hlab : labels 0 tX2 = [0, 0] := by
    norm_num [labels, label, sqdistToCenter, tX2]
  have h1 : to_one_hot [0, 0] = some [[1], [1]] := to_one_hot_zeros 1
  unfold load_data
  rw [hlab, show labels 0 ([] : List (ℚ × ℚ)) = [] from rfl, h1, to_one_hot_nil]
  simp only [res2, Option.some.injEq, LoadResult.mk.injEq]
  norm_num [standardize2, tX2, mean, flatten]

lemma load_data_run2 :
    load_data (1 / 8) (fun _ => 1) tX3 [] false = some res3 := by
  have hlab : labels (1 / 8) tX3 = [1, 0] := by
    norm_num [labels, label, sqdistToCenter, tX3]
  have h1 : to_one_hot [1, 0] = some [[0, 1], [1, 0]] := by
    have hnc : numClasses [1, 0] = 2 := by decide
    unfold to_one_hot
    rw [if_pos]
    · rw [hnc]
      norm_num [oneHotRow, List.range_succ]
    · intro v hv
      rw [hnc]
      simp at hv
      rcases hv with rfl | rfl <;> omega
  unfold load_data
  rw [hlab, show labels (1 / 8) ([] : List (ℚ × ℚ)) = [] from rfl, h1, to_one_hot_nil]
  simp only [res3, Option.some.injEq, LoadResult.mk.injEq]
  norm_num [standardize2, tX3, mean, flatten]

/-- C2: for a label vector whose set of distinct values is exactly {0, 1},
`to_one_hot` succeeds, the result has `len(y)` rows, and each row is a
two-column one-hot indicator with the 1 in column `y i`. -/
theorem C2_to_one_hot_binary (y : List ℕ) (h : y.toFinset = ({0, 1} : Finset ℕ)) :
    to_one_hot y = some (y.map (fun v => oneHotRow 2 v)) ∧
    (y.map (fun v => oneHotRow 2 v)).length = y.length ∧
    ∀ v ∈ y, (oneHotRow 2 v).length = 2 ∧ (oneHotRow 2 v).sum = 1 ∧
      (oneHotRow 2 v).getD v 0 = 1 ∧ ∀ j, j ≠ v → (oneHotRow 2 v).getD j 0 = 0 := by
  have hcard : numClasses y = 2 := by
    unfold numClasses
    rw [← List.card_toFinset, h]
    decide
  have hmem : ∀ v ∈ y, v = 0 ∨ v = 1 := by
    intro v hv
    have hvf : v ∈ y.toFinset := List.mem_toFinset.mpr hv
    rw [h] at hvf
    simpa using hvf
  have hlt : ∀ v ∈ y, v < numClasses y := by
    intro v hv
    rcases hmem v hv with rfl | rfl <;> simp [hcard]
  refine ⟨?_, by simp, ?_⟩
  · unfold to_one_hot
    rw [if_pos hlt, hcard]
  · intro v hv
    rcases hmem v hv with rfl | rfl
    · refine ⟨by simp [oneHotRow], by norm_num [oneHotRow, List.range_succ], ?_, ?_⟩
      · norm_num [oneHotRow, List.range_succ]
      · intro j hj
        match j with
        | 0 => exact absurd rfl hj
        | 1 => norm_num [oneHotRow, List.range_succ]
        | n + 2 =>
          apply List.getD_eq_default
          simp [oneHotRow]
    · refine ⟨by simp [oneHotRow], by norm_num [oneHotRow, List.range_succ], ?_, ?_⟩
      · norm_num [oneHotRow, List.range_succ]
      · intro j hj
        match j with
        | 0 => norm_num [oneHotRow, List.range_succ]
        | 1 => exact absurd rfl hj
        | n + 2 =>
          apply List.getD_eq_default
          simp [oneHotRow]

/-- C2 witness: concrete run on `y = [0, 1, 1]`. -/
theorem C2_witness :
    to_one_hot [0, 1, 1] = some ([0, 1, 1].map (fun v => oneHotRow 2 v)) ∧
    (oneHotRow 2 1).sum = 1 := by
  refine ⟨(C2_to_one_hot_binary [0, 1, 1] (by decide)).1, ?_⟩
  exact ((C2_to_one_hot_binary [0, 1, 1] (by decide)).2.2 1 (by decide)).2.1

/-- C10: `to_one_hot` fails (the indexing assignment is out of bounds) whenever
the input contains a class `k` with fewer than `k + 1` distinct values. -/
theorem C10_to_one_hot_out_of_bounds (y : List ℕ) (k : ℕ) (hk : k ∈ y)
    (h : numClasses y ≤ k) : to_one_hot y = none := by
  unfold to_one_hot
  rw [if_neg]
  intro hall
  exact absurd (hall k hk) (by omega)

/-- C10 witness: `y` consisting entirely of 1s yields a one-column matrix and
the assignment at column 1 is out of bounds. -/
theorem C10_witness : to_one_hot [1, 1, 1] = none :=
  C10_to_one_hot_out_of_bounds [1, 1, 1] 1 (by decide) (by decide)

/-- C4: `standardize` on a tensor handle replaces every entry `e` of that
tensor by `(e - mean) / std`, mutates only that slot of the store, and returns
the same handle it was given (the result aliases the argument). -/
theorem C4_standardize_in_place (s : Store) (i : ℕ) (mean std : ℚ)
    (hi : i < s.length) (_hstd : std ≠ 0) :
    (standardizeInPlace s i mean std).2 = i ∧
    List.getD (standardizeInPlace s i mean std).1 i [] =
      (List.getD s i []).map (fun e => (e - mean) / std) ∧
    (∀ j, j ≠ i → List.getD (standardizeInPlace s i mean std).1 j [] = List.getD s j []) ∧
    (standardizeInPlace s i mean std).1.length = s.length := by
  refine ⟨rfl, ?_, ?_, by simp [standardizeInPlace]⟩
  · exact set_getD_same s i _ hi
  · intro j hj
    exact set_getD_other s i j _ hj

/-- C4 witness: concrete store with two tensors, standardizing slot 0. -/
theorem C4_witness :
    (standardizeInPlace [[1, 3], [5]] 0 1 2).2 = 0 ∧
    List.getD (standardizeInPlace [[1, 3], [5]] 0 1 2).1 0 [] =
      ([(1 : ℚ), 3].map (fun e => (e - 1) / 2)) := by
  have h := C4_standardize_in_place [[1, 3], [5]] 0 1 2 (by simp) (by norm_num)
  exact ⟨h.1, h.2.1⟩

/-- C5: the guarded embedding of `standardize` takes its error branch exactly
when `std = 0`; under the precondition `std ≠ 0` the error branch is
unreachable and the result is the unguarded elementwise transform. -/
theorem C5_standardize_div_guard (x : List ℚ) (mean std : ℚ) :
    (standardizeChecked x mean std = none ↔ std = 0) ∧
    (std ≠ 0 → standardizeChecked x mean std = some (standardize x mean std)) := by
  constructor
  · constructor
    · intro h
      by_contra hstd
      simp [standardizeChecked, hstd] at h
    · intro h
      simp [standardizeChecked, h]
  · intro h
    simp [standardizeChecked, h]

/-- C5 witness: the error branch fires at `std = 0` and is avoided at a
nonzero `std`. -/
theorem C5_witness :
    standardizeChecked [2] 0 0 = none ∧
    standardizeChecked [2] 0 4 = some (standardize [2] 0 4) := by
  exact ⟨(C5_standardize_div_guard [2] 0 0).1.mpr rfl,
    (C5_standardize_div_guard [2] 0 4).2 (by norm_num)⟩

/-- C3: both returned samples are standardized with the single mean/std pair
computed over the raw training coordinates; the test set's own statistics
never enter the result. -/
theorem C3_train_stats_both_sets (r2 : ℚ) (stdf : List ℚ → ℚ)
    (trainX testX : List (ℚ × ℚ)) (plotting : Bool) (res : LoadResult)
    (hres : load_data r2 stdf trainX testX plotting = some res) :
    res.trainX = standardize2 trainX (mean (flatten trainX)) (stdf (flatten trainX)) ∧
    res.testX = standardize2 testX (mean (flatten trainX)) (stdf (flatten trainX)) := by
  obtain ⟨Y1, Y2, h1, h2, hr⟩ := load_data_eq_some r2 stdf trainX testX plotting res hres
  rw [hr]
  exact ⟨rfl, rfl⟩

/-- C6: standardizing a dataset with its own mean and standard deviation (any
`σ` with `σ² = uvar x`, `σ ≠ 0`) yields exact mean 0 and exact unbiased
variance 1, hence standard deviation exactly 1 (a nonnegative square root of
the resulting variance is forced to 1); and in `load_data` this holds for the
returned training set whenever `stdf` really is the standard deviation of the
raw training coordinates and it is nonzero. -/
theorem C6_standardized_mean_var (x : List ℚ) (σ : ℚ) (h2 : 2 ≤ x.length)
    (hσ2 : σ ^ 2 = uvar x) (hσ0 : σ ≠ 0)
    (r2 : ℚ) (stdf : List ℚ → ℚ) (trainX testX : List (ℚ × ℚ)) (plotting : Bool)
    (res : LoadResult) (hres : load_data r2 stdf trainX testX plotting = some res)
    (hlen : 2 ≤ (flatten trainX).length)
    (hstd2 : (stdf (flatten trainX)) ^ 2 = uvar (flatten trainX))
    (hstd0 : stdf (flatten trainX) ≠ 0) :
    (mean (standardize x (mean x) σ) = 0 ∧
     uvar (standardize x (mean x) σ) = 1 ∧
     ∀ ρ : ℚ, 0 ≤ ρ → ρ ^ 2 = uvar (standardize x (mean x) σ) → ρ = 1) ∧
    (mean (flatten res.trainX) = 0 ∧ uvar (flatten res.trainX) = 1) := by
  have hne : x ≠ [] := by
    intro hnil
    rw [hnil] at h2
    simp at h2
  have hu := uvar_standardize_self x σ h2 hσ2 hσ0
  constructor
  · refine ⟨mean_standardize_self x σ hne, hu, ?_⟩
    intro ρ hρ hρ2
    rw [hu] at hρ2
    have hfac : (ρ - 1) * (ρ + 1) = 0 := by ring_nf; linarith [hρ2]
    rcases mul_eq_zero.mp hfac with hl | hr
    · linarith [sub_eq_zero.mp hl]
    · linarith
  · obtain ⟨Y1, Y2, hh1, hh2, hr⟩ := load_data_eq_some r2 stdf trainX testX plotting res hres
    have htne : flatten trainX ≠ [] := by
      intro hnil
      rw [hnil] at hlen
      simp at hlen
    have hX : flatten res.trainX =
        standardize (flatten trainX) (mean (flatten trainX)) (stdf (flatten trainX)) := by
      rw [hr]
      exact flatten_standardize2 trainX _ _
    rw [hX]
    exact ⟨mean_standardize_self _ _ htne,
      uvar_standardize_self _ _ hlen hstd2 hstd0⟩

lemma oneHotLabelRows_of_map (r2 : ℚ) (X : List (ℚ × ℚ)) :
    oneHotLabelRows r2 (numClasses (labels r2 X)) X
      ((labels r2 X).map (fun v => oneHotRow (numClasses (labels r2 X)) v)) := by
  constructor
  · simp [labels]
  · intro i hi
    have hlen : i < (labels r2 X).length := by simpa [labels] using hi
    rw [getD_map _ _ 0 _ i hlen]
    congr 1
    rw [labels, getD_map _ _ (0, 0) _ i hi]

lemma countP_partition (l : List (ℕ × ℕ)) (h : ∀ pt ∈ l, pt.1 < 2 ∧ pt.2 < 2) :
    List.countP (fun pt => pt.1 == 0 && pt.2 == 0) l +
    List.countP (fun pt => pt.1 == 1 && pt.2 == 0) l +
    (List.countP (fun pt => pt.1 == 0 && pt.2 == 1) l +
     List.countP (fun pt => pt.1 == 1 && pt.2 == 1) l) = l.length := by
  induction l with
  | nil => simp
  | cons p l ih =>
    have hp := h p (List.mem_cons_self p l)
    have ihh := ih (fun pt hpt => h pt (List.mem_cons_of_mem p hpt))
    have h1 : p.1 = 0 ∨ p.1 = 1 := by omega
    have h2 : p.2 = 0 ∨ p.2 = 1 := by omega
    rcases h1 with e1 | e1 <;> rcases h2 with e2 | e2 <;>
      simp [List.countP_cons, e1, e2] <;> omega

/-- C1 counterexample to the claim as stated: a possible run of the generator
in which every sampled point (1000 of them, all at the corner `(0, 0)`, inside
`[0,1]²`) lies outside the disk, so every label is 0, `len(y.unique()) = 1`,
and every returned target row is the ONE-column row `[1]`, not a two-column
indicator.  The threshold used is the 15-digit decimal value of `1/(2π)`; any
threshold in `(0, 1/2]` gives the same trace. -/
theorem C1_counterexample :
    (load_data r2num (fun _ => 1) (List.replicate 1000 ((0 : ℚ), (0 : ℚ)))
        (List.replicate 1000 ((0 : ℚ), (0 : ℚ))) false).map (fun res => res.trainY) =
      some (List.replicate 1000 [1]) ∧
    ([(1 : ℚ)]).length ≠ 2 := by
  constructor
  · have hlabel : label r2num ((0 : ℚ), (0 : ℚ)) = 0 := by
      rw [label, if_neg]
      norm_num [sqdistToCenter, r2num]
    have hlab : labels r2num (List.replicate 1000 ((0 : ℚ), (0 : ℚ))) =
        List.replicate 1000 0 := by
      rw [labels, List.map_replicate, hlabel]
    have h1 : to_one_hot (List.replicate 1000 (0 : ℕ)) =
        some (List.replicate 1000 [1]) := by
      rw [show (1000 : ℕ) = 999 + 1 from rfl]
      exact to_one_hot_zeros 999
    unfold load_data
    rw [hlab, h1]
    rfl
  · simp

/-- C1, amended: every generated point's label is 1 exactly when its squared
distance to `(0.5, 0.5)` is strictly below the threshold and 0 otherwise, and
its target row is the one-hot indicator of that label over the observed
classes; PROVIDED both label values occur in the sample, the observed-class
count is 2 and every target row is two-column. -/
theorem C1_amended_disk_labels (r2 : ℚ) (stdf : List ℚ → ℚ)
    (trainX testX : List (ℚ × ℚ)) (plotting : Bool) (res : LoadResult)
    (hres : load_data r2 stdf trainX testX plotting = some res) :
    oneHotLabelRows r2 (numClasses (labels r2 trainX)) trainX res.trainY ∧
    oneHotLabelRows r2 (numClasses (labels r2 testX)) testX res.testY ∧
    (∀ p : ℚ × ℚ, (label r2 p = 1 ↔ sqdistToCenter p < r2) ∧
      (label r2 p = 0 ↔ ¬ sqdistToCenter p < r2)) ∧
    ((labels r2 trainX).toFinset = ({0, 1} : Finset ℕ) →
      numClasses (labels r2 trainX) = 2 ∧
      ∀ i, i < trainX.length → (List.getD res.trainY i []).length = 2) ∧
    ((labels r2 testX).toFinset = ({0, 1} : Finset ℕ) →
      numClasses (labels r2 testX) = 2 ∧
      ∀ i, i < testX.length → (List.getD res.testY i []).length = 2) := by
  obtain ⟨Y1, Y2, h1, h2, hr⟩ := load_data_eq_some r2 stdf trainX testX plotting res hres
  have hY1 := to_one_hot_eq_some _ _ h1
  have hY2 := to_one_hot_eq_some _ _ h2
  have htrain : res.trainY = (labels r2 trainX).map
      (fun v => oneHotRow (numClasses (labels r2 trainX)) v) := by
    rw [hr]
    exact hY1
  have htest : res.testY = (labels r2 testX).map
      (fun v => oneHotRow (numClasses (labels r2 testX)) v) := by
    rw [hr]
    exact hY2
  have hrows1 : oneHotLabelRows r2 (numClasses (labels r2 trainX)) trainX res.trainY := by
    rw [htrain]
    exact oneHotLabelRows_of_map r2 trainX
  have hrows2 : oneHotLabelRows r2 (numClasses (labels r2 testX)) testX res.testY := by
    rw [htest]
    exact oneHotLabelRows_of_map r2 testX
  refine ⟨hrows1, hrows2, ?_, ?_, ?_⟩
  · intro p
    by_cases hc : sqdistToCenter p < r2 <;> simp [label, hc]
  · intro htf
    have hc2 := numClasses_eq_two _ htf
    refine ⟨hc2, ?_⟩
    intro i hi
    rw [hrows1.2 i hi, hc2, oneHotRow_length]
  · intro htf
    have hc2 := numClasses_eq_two _ htf
    refine ⟨hc2, ?_⟩
    intro i hi
    rw [hrows2.2 i hi, hc2, oneHotRow_length]

/-- C1 witness: a run with one point inside and one outside the disk, labels
`[1, 0]`, whose target rows are the two-column indicators `[[0,1],[1,0]]`. -/
theorem C1_witness :
    oneHotLabelRows (1 / 8) (numClasses (labels (1 / 8) tX3)) tX3 res3.trainY ∧
    (label (1 / 8) ((1 : ℚ) / 2, (1 : ℚ) / 2) = 1 ↔
      sqdistToCenter ((1 : ℚ) / 2, (1 : ℚ) / 2) < 1 / 8) ∧
    (List.getD res3.trainY 0 []).length = 2 := by
  have hl : labels (1 / 8) tX3 = [1, 0] := by
    norm_num [labels, label, sqdistToCenter, tX3]
  have h := C1_amended_disk_labels (1 / 8) (fun _ => 1) tX3 [] false res3 load_data_run2
  refine ⟨h.1, (h.2.2.1 ((1 : ℚ) / 2, (1 : ℚ) / 2)).1, ?_⟩
  refine (h.2.2.2.1 ?_).2 0 (by simp [tX3])
  rw [hl]
  decide

/-- C7: whenever predicted and true classes all lie in {0, 1}, the four
confusion cells partition the test set, so the 2×2 confusion matrix entries
sum to the test-set size. -/
theorem C7_confusion_total (net : List (ℚ × ℚ) → List (List ℚ)) (losses : List ℚ)
    (testX : List (ℚ × ℚ)) (testY : List (List ℚ)) (n : ℕ)
    (hn : (net testX).length = n) (hy : testY.length = n)
    (hpred : ∀ row ∈ net testX, argmax row < 2)
    (htrue : ∀ row ∈ testY, argmax row < 2) :
    ((train_visualization net losses testX testY).conf.map List.sum).sum = n := by
  unfold train_visualization
  simp only [List.map_cons, List.map_nil, List.sum_cons, List.sum_nil]
  have hzlen : (((net testX).map argmax).zip (testY.map argmax)).length = n := by
    rw [List.length_zip]
    simp [hn, hy]
  have hmem : ∀ pt ∈ ((net testX).map argmax).zip (testY.map argmax),
      pt.1 < 2 ∧ pt.2 < 2 := by
    intro pt hpt
    obtain ⟨a, b⟩ := pt
    obtain ⟨ha, hb⟩ := List.of_mem_zip hpt
    obtain ⟨rowa, hrowa, haa⟩ := List.mem_map.mp ha
    obtain ⟨rowb, hrowb, hbb⟩ := List.mem_map.mp hb
    exact ⟨haa ▸ hpred rowa hrowa, hbb ▸ htrue rowb hrowb⟩
  have hpart := countP_partition _ hmem
  rw [hzlen] at hpart
  unfold countPT
  omega

/-- C7 witness: three test points with predictions `[0, 1, 1]` and true
classes `[0, 0, 1]`; the confusion matrix entries sum to 3. -/
theorem C7_witness :
    ((train_visualization net7 [] [] tY7).conf.map List.sum).sum = 3 := by
  apply C7_confusion_total net7 [] [] tY7 3 rfl rfl
  · intro row hrow
    simp [net7] at hrow
    rcases hrow with rfl | rfl | rfl <;> norm_num [argmax, argmaxGo]
  · intro row hrow
    simp [tY7] at hrow
    rcases hrow with rfl | rfl | rfl <;> norm_num [argmax, argmaxGo]

/-- C8 counterexample to the claim as stated: with plotting enabled, the data
recorded by the plotting calls is the RAW sample, which differs from the
standardized coordinates the run returns. -/
theorem C8_counterexample :
    (load_data 0 (fun _ => 1) tX2 [] true).map (fun res => res.plots.map PlotEvent.data) =
      some [tX2, []] ∧
    (load_data 0 (fun _ => 1) tX2 [] true).map (fun res => res.trainX) =
      some [((-1) / 2, (-1) / 2), ((-1) / 2, 3 / 2)] ∧
    ([tX2, []] : List (List (ℚ × ℚ))) ≠ [[((-1) / 2, (-1) / 2), ((-1) / 2, 3 / 2)], []] := by
  refine ⟨?_, ?_, ?_⟩
  · rw [load_data_run1 true]
    simp [res2, plot_dataset]
  · rw [load_data_run1 true]
    simp [res2]
  · intro hcontra
    norm_num [tX2] at hcontra

/-- C8, amended: `load_data` computes the training mean/std first, but
plotting (when enabled) is triggered BEFORE standardization is applied, so
`plot_dataset` receives the raw coordinates of both samples; the returned
samples are then standardized with the training statistics. -/
theorem C8_plot_before_standardize (r2 : ℚ) (stdf : List ℚ → ℚ)
    (trainX testX : List (ℚ × ℚ)) (res : LoadResult)
    (hres : load_data r2 stdf trainX testX true = some res) :
    res.plots.map PlotEvent.data = [trainX, testX] ∧
    res.trainX = standardize2 trainX (mean (flatten trainX)) (stdf (flatten trainX)) ∧
    res.testX = standardize2 testX (mean (flatten trainX)) (stdf (flatten trainX)) := by
  obtain ⟨Y1, Y2, h1, h2, hr⟩ := load_data_eq_some r2 stdf trainX testX true res hres
  rw [hr]
  refine ⟨?_, rfl, rfl⟩
  simp [plot_dataset]

/-- C8 witness: concrete plotting run whose recorded plot data is the raw
sample while the returned training set is standardized. -/
theorem C8_witness :
    (res2 true).plots.map PlotEvent.data = [tX2, []] ∧
    (res2 true).trainX = standardize2 tX2 (mean (flatten tX2)) 1 := by
  have h := C8_plot_before_standardize 0 (fun _ => 1) tX2 [] (res2 true) (load_data_run1 true)
  exact ⟨h.1, h.2.1⟩

/-- C9: the only files the model ever records are the five fixed relative
paths: `train_visualization` always saves exactly `fig/loss.png`,
`fig/confmat.png`, `fig/predictions.png`, and a `load_data` run saves exactly
`fig/train.png` and `fig/test.png` when plotting is enabled and nothing
otherwise. -/
theorem C9_output_files (net : List (ℚ × ℚ) → List (List ℚ)) (losses : List ℚ)
    (vX : List (ℚ × ℚ)) (vY : List (List ℚ)) (r2 : ℚ) (stdf : List ℚ → ℚ)
    (trainX testX : List (ℚ × ℚ)) (plotting : Bool) (res : LoadResult)
    (hres : load_data r2 stdf trainX testX plotting = some res) :
    (train_visualization net losses vX vY).files =
      ["fig/loss.png", "fig/confmat.png", "fig/predictions.png"] ∧
    res.plots.map PlotEvent.fname =
      (if plotting then ["fig/train.png", "fig/test.png"] else []) := by
  refine ⟨rfl, ?_⟩
  obtain ⟨Y1, Y2, h1, h2, hr⟩ := load_data_eq_some r2 stdf trainX testX plotting res hres
  rw [hr]
  cases plotting
  · simp
  · simp [plot_dataset, nameTrain, nameTest]

/-- C9 witness: concrete traces for both functions. -/
theorem C9_witness :
    (train_visualization net7 [] [] tY7).files =
      ["fig/loss.png", "fig/confmat.png", "fig/predictions.png"] ∧
    (res2 true).plots.map PlotEvent.fname = ["fig/train.png", "fig/test.png"] := by
  have h := C9_output_files net7 [] [] tY7 0 (fun _ => 1) tX2 [] true (res2 true)
    (load_data_run1 true)
  exact ⟨h.1, h.2⟩

/-- C3 witness: concrete run in which both returned samples carry the
training-statistics standardization. -/
theorem C3_witness :
    (res2 false).trainX = standardize2 tX2 (mean (flatten tX2)) 1 ∧
    (res2 false).testX = standardize2 [] (mean (flatten tX2)) 1 := by
  have h := C3_train_stats_both_sets 0 (fun _ => 1) tX2 [] false (res2 false)
    (load_data_run1 false)
  exact ⟨h.1, h.2⟩

/-- C6 witness: the dataset `[0, 1, 2]` has mean 1 and unbiased variance 1;
standardizing it with its own statistics gives mean 0 and variance 1, and the
concrete `load_data` run on `tX2` returns a training set with mean 0 and
variance 1. -/
theorem C6_witness :
    mean (standardize [0, 1, 2] (mean [0, 1, 2]) 1) = 0 ∧
    uvar (standardize [0, 1, 2] (mean [0, 1, 2]) 1) = 1 ∧
    mean (flatten (res2 false).trainX) = 0 ∧
    uvar (flatten (res2 false).trainX) = 1 := by
  have h := C6_standardized_mean_var [0, 1, 2] 1 (by norm_num)
    (by norm_num [uvar, mean]) one_ne_zero 0 (fun _ => 1) tX2 [] false (res2 false)
    (load_data_run1 false) (by norm_num [flatten, tX2])
    (by norm_num [uvar, mean, flatten, tX2]) (by norm_num)
  exact ⟨h.1.1, h.1.2.1, h.2.1, h.2.2⟩

end Utils
